import Mathlib

/-!
Shallow embedding of the fixed-width decoder package fw (decoder.go,
setters.go, errors.go) and proofs about its layout resolution, decoding-plan
compilation and per-field conversion pipeline.

Records are modelled as lists of runes (Lean Char), mirroring the source's
systematic conversion of scanned lines via []rune.  Machine integers are
modelled as Int/Nat with explicit powers of two where bit widths matter.
External Go library behaviour (strconv, time.Parse, regexp on the patterns the
package builds) is modelled on exactly the fragments the package exercises;
each such definition's doc comment states the fragment.
-/

deriving instance DecidableEq for Except

namespace Fw

/-- Error values of the package.  castingError mirrors CastingError (setters.go),
overflowError mirrors OverflowError, invalidTypeError mirrors InvalidTypeError,
lengthError mirrors the fmt.Errorf value built in decoder.go readLine (line
number, actual rune length, expected headers length), regexError stands for a
regexp compile failure propagated by parseHeaders, processingComplete for the
error returned by Decode when the done flag is set, and eof for io.EOF. -/
inductive FwError where
  | castingError (value fieldName : String)
  | overflowError (fieldName : String)
  | invalidTypeError (fieldName : String)
  | lengthError (lineNum actual expected : Nat)
  | regexError
  | processingComplete
  | eof
deriving DecidableEq, Repr

/-- Error message text, mirroring the Error() methods in errors.go and the
fmt.Errorf format strings in decoder.go.  Decode's done-flag error reads
"processing already complete" (decoder.go line 89). -/
def FwError.message : FwError → String
  | .castingError v f => "failed casting \"" ++ v ++ "\" to \"" ++ f ++ "\""
  | .overflowError f => "value is too big for field " ++ f
  | .invalidTypeError f => "unable to create a converter for field \"" ++ f ++ "\""
  | .lengthError n a e =>
      "wrong data length in line " ++ toString n ++ " (" ++ toString a ++
        " != " ++ toString e ++ ")"
  | .regexError => "error parsing regexp"
  | .processingComplete => "processing already complete"
  | .eof => "EOF"

/-- Numeric value of a decimal digit character, if it is one. -/
def digitVal (c : Char) : Option Nat :=
  if '0' ≤ c ∧ c ≤ '9' then some (c.toNat - '0'.toNat) else none

/-- Folds decimal digits into a natural number; fails on any non-digit. -/
def decDigitsAux : List Char → Nat → Option Nat
  | [], acc => some acc
  | c :: cs, acc =>
      match digitVal c with
      | some d => decDigitsAux cs (acc * 10 + d)
      | none => none

/-- Decimal digit-string value; fails when empty or on any non-digit. -/
def decDigits (cs : List Char) : Option Nat :=
  if cs.isEmpty then none else decDigitsAux cs 0

/-- Parse failures of the Go strconv number parsers: ErrSyntax or ErrRange. -/
inductive ParseErr where
  | synErr
  | rangeErr
deriving DecidableEq, Repr

/-- Models Go strconv.ParseUint with base 10 and the given bit size: no sign
prefix is permitted, the text must be one or more decimal digits, and a value
of 2^bits or more is an ErrRange failure. -/
def parseUintGo (cs : List Char) (bits : Nat) : Except ParseErr Nat :=
  match decDigits cs with
  | none => .error .synErr
  | some v => if v < 2 ^ bits then .ok v else .error .rangeErr

/-- Magnitude-and-sign part of strconv.ParseInt: digits after an optional sign,
range-checked against [-2^(bits-1), 2^(bits-1)-1]. -/
def parseIntCore (cs : List Char) (neg : Bool) (bits : Nat) : Except ParseErr Int :=
  match decDigits cs with
  | none => .error .synErr
  | some m =>
      let v : Int := if neg then -(m : Int) else (m : Int)
      if -(2 ^ (bits - 1) : Int) ≤ v ∧ v < 2 ^ (bits - 1) then .ok v
      else .error .rangeErr

/-- Models Go strconv.ParseInt with base 10 and the given bit size: an optional
leading sign, then decimal digits, with the two's-complement range check. -/
def parseIntGo (cs : List Char) (bits : Nat) : Except ParseErr Int :=
  match cs with
  | '+' :: rest => parseIntCore rest false bits
  | '-' :: rest => parseIntCore rest true bits
  | _ => parseIntCore cs false bits

/-- Exact value of math.MaxFloat32, the largest finite float32:
(2^24 − 1) · 2^104. -/
def maxFloat32Num : Int := ((2 ^ 24 - 1) * 2 ^ 104 : Nat)

/-- Smallest magnitude that IEEE-754 round-to-nearest-even sends beyond the
largest finite float64: 2^1024 − 2^970.  A correctly rounding parser such as
Go strconv.ParseFloat reports ErrRange exactly for decimal inputs of at least
this magnitude. -/
def float64InfBound : Int := ((2 ^ 1024 - 2 ^ 970 : Nat) : Int)

/-- Digits-and-point part of parseFloatGo: decimal digits, optionally followed
by a point and further digits, both runs nonempty; the value is kept exactly
as a scaled integer n / 10^e. -/
def parseFloatCore (cs : List Char) (neg : Bool) : Except ParseErr (Int × Nat) :=
  let intDigits := cs.takeWhile (fun c => (digitVal c).isSome)
  let rest := cs.dropWhile (fun c => (digitVal c).isSome)
  match decDigits intDigits with
  | none => .error .synErr
  | some ip =>
      match rest with
      | [] =>
          let n : Int := if neg then -(ip : Int) else (ip : Int)
          if float64InfBound ≤ |n| then .error .rangeErr else .ok (n, 0)
      | '.' :: fracs =>
          match decDigits fracs with
          | none => .error .synErr
          | some fp =>
              let m : Nat := ip * 10 ^ fracs.length + fp
              let n : Int := if neg then -(m : Int) else (m : Int)
              if float64InfBound * 10 ^ fracs.length ≤ |n| then
                .error .rangeErr
              else .ok (n, fracs.length)
      | _ => .error .synErr

/-- Models Go strconv.ParseFloat(raw, 64) on the fragment the claims
exercise: an optional sign, then decimal digits, optionally a point and more
digits.  Exponent, hexadecimal, Inf/NaN and bare-point forms are outside the
fragment and mapped to a syntax failure.  The parsed value is kept exactly as
a scaled integer n / 10^e; a magnitude of at least 2^1024 − 2^970 (the exact
round-to-infinity threshold) is the ErrRange failure, matching Go on every
decimal input.  Underflow of tiny fractions is not modelled; such inputs
reach no theorem's non-vacuous case. -/
def parseFloatGo (cs : List Char) : Except ParseErr (Int × Nat) :=
  match cs with
  | '+' :: rest => parseFloatCore rest false
  | '-' :: rest => parseFloatCore rest true
  | _ => parseFloatCore cs false

/-- Models reflect OverflowFloat on the parsed value: a float64 destination
never overflows; a float32 destination overflows when MaxFloat32 < value in
magnitude.  Go makes this comparison on the float64 rounding of the input;
comparing on the exact decimal value agrees except for exact values inside
the half-ulp band (MaxFloat32, MaxFloat32 + 2^74], which Go rounds down to
MaxFloat32 — no theorem instantiates that band. -/
def overflowFloatGo (w : Nat) (n : Int) (e : Nat) : Bool :=
  if w = 32 then decide (maxFloat32Num * 10 ^ e < |n|) else false

/-- Models Go strconv.ParseBool: exactly the canonical literal tokens. -/
def parseBoolGo (s : String) : Except Unit Bool :=
  if s = "1" ∨ s = "t" ∨ s = "T" ∨ s = "TRUE" ∨ s = "true" ∨ s = "True" then
    .ok true
  else if s = "0" ∨ s = "f" ∨ s = "F" ∨ s = "FALSE" ∨ s = "false" ∨ s = "False" then
    .ok false
  else .error ()

/-- The package's parseBool (setters.go): hard-coded yes/no variants first,
then the strconv.ParseBool fallback.  It takes only the raw string; no
configuration value reaches it. -/
def parseBool (s : String) : Except Unit Bool :=
  if s = "yes" ∨ s = "YES" ∨ s = "Yes" then .ok true
  else if s = "no" ∨ s = "NO" ∨ s = "No" then .ok false
  else parseBoolGo s

/-- Go unicode.IsSpace restricted to the ASCII whitespace characters, the
fragment strings.TrimSpace needs for this package's inputs. -/
def isSpaceGo (c : Char) : Bool :=
  c = ' ' ∨ c = '\t' ∨ c = '\n' ∨ c = '\r' ∨ c = '\x0b' ∨ c = '\x0c'

/-- Models Go strings.TrimSpace on ASCII whitespace. -/
def trimSpaceGo (cs : List Char) : List Char :=
  ((cs.dropWhile isSpaceGo).reverse.dropWhile isSpaceGo).reverse

/-- Leap-year rule of the proleptic Gregorian calendar, as Go time uses. -/
def isLeap (y : Nat) : Bool := (y % 4 = 0 ∧ y % 100 ≠ 0) ∨ y % 400 = 0

/-- Day count of a month, as Go time validates dates. -/
def daysInMonth (y m : Nat) : Nat :=
  if m = 2 then (if isLeap y then 29 else 28)
  else if m = 4 ∨ m = 6 ∨ m = 9 ∨ m = 11 then 30
  else 31

/-- Models the fragment of Go time.Parse this package's claims exercise: the
layout string "2006-01-02" (four-digit year, dash, two-digit month, dash,
two-digit day, with Go's date validation).  Any other layout, including the
RFC3339 default, is outside the modelled fragment and reported as a parse
failure. -/
def goTimeParse (layout : String) (cs : List Char) : Option (Nat × Nat × Nat) :=
  if layout = "2006-01-02" then
    match cs with
    | [y1, y2, y3, y4, '-', m1, m2, '-', d1, d2] =>
        match digitVal y1, digitVal y2, digitVal y3, digitVal y4,
            digitVal m1, digitVal m2, digitVal d1, digitVal d2 with
        | some a, some b, some c, some d, some e, some f, some g, some h =>
            let y := ((a * 10 + b) * 10 + c) * 10 + d
            let m := e * 10 + f
            let dd := g * 10 + h
            if 1 ≤ m ∧ m ≤ 12 ∧ 1 ≤ dd ∧ dd ≤ daysInMonth y m then
              some (y, m, dd)
            else none
        | _, _, _, _, _, _, _, _ => none
    | _ => none
  else none

/-- Field type classification, mirroring the switch in getFieldSetter
(setters.go): string, bool, the signed and unsigned integer families and the
floating-point family with their declared bit widths (Go int is modelled with
width 64; floats are 32 or 64), time.Time, and a class for types with no
setter (InvalidTypeError).  Pointer and TextUnmarshaler variants are not
needed by the claims and are outside the model. -/
inductive FType where
  | tString
  | tBool
  | tInt (width : Nat)
  | tUint (width : Nat)
  | tFloat (width : Nat)
  | tTime
  | tUnsupported
deriving DecidableEq, Repr

/-- A struct field as reflect presents it: name, optional column tag, optional
format tag, type classification, exported flag. -/
structure Field where
  name : String
  columnTag : Option String := none
  formatTag : Option String := none
  ftype : FType
  exported : Bool := true
deriving DecidableEq, Repr

/-- Runtime field values of the modelled types; vTime is a calendar date, the
fragment of time.Time the modelled formats populate; vFloat carries the
parsed decimal exactly as the scaled integer num / 10^scale (the value the
stored float64 rounds, exact on every input a theorem instantiates); vNone
inhabits unsupported fields. -/
inductive Val where
  | vStr (s : String)
  | vBool (b : Bool)
  | vInt (i : Int)
  | vUint (n : Nat)
  | vFloat (num : Int) (scale : Nat)
  | vTime (y m d : Nat)
  | vNone
deriving DecidableEq, Repr

/-- Go zero values of the modelled types; the zero time.Time is January 1 of
year 1. -/
def zeroVal : FType → Val
  | .tString => .vStr ""
  | .tBool => .vBool false
  | .tInt _ => .vInt 0
  | .tUint _ => .vUint 0
  | .tFloat _ => .vFloat 0 0
  | .tTime => .vTime 1 1 1
  | .tUnsupported => .vNone

/-- Effective column name of a field: the column tag when present, else the
field's own name (getRefName, setters.go). -/
def getRefName (f : Field) : String := f.columnTag.getD f.name

/-- The time.RFC3339 layout string, the default when no format tag exists. -/
def rfc3339Layout : String := "2006-01-02T15:04:05Z07:00"

/-- Models the value setters of setters.go applied to a trimmed raw string:
stringSet stores the string as is; boolSet goes through parseBool; intSet
parses with strconv.ParseInt(raw, 10, 0) — bit size 0 meaning the platform
int, modelled as 64 bits — and then checks reflect OverflowInt against the
destination width; uintSet first applies strings.TrimSpace, parses with
ParseUint(raw, 10, 64) and checks OverflowUint; floatSet parses with
ParseFloat(raw, 64) and checks reflect OverflowFloat against the destination
width; createTimeSet parses with the field's format tag (default RFC3339) via
time.Parse.  Parse failures are CastingError values, width failures are
OverflowError values. -/
def fieldSet (ft : FType) (f : Field) (raw : String) : Except FwError Val :=
  match ft with
  | .tString => .ok (.vStr raw)
  | .tBool =>
      match parseBool raw with
      | .ok b => .ok (.vBool b)
      | .error _ => .error (.castingError raw f.name)
  | .tInt w =>
      match parseIntGo raw.toList 64 with
      | .error _ => .error (.castingError raw f.name)
      | .ok v =>
          if -(2 ^ (w - 1) : Int) ≤ v ∧ v < 2 ^ (w - 1) then .ok (.vInt v)
          else .error (.overflowError f.name)
  | .tUint w =>
      let raw2 := String.mk (trimSpaceGo raw.toList)
      match parseUintGo raw2.toList 64 with
      | .error _ => .error (.castingError raw2 f.name)
      | .ok v =>
          if v < 2 ^ w then .ok (.vUint v)
          else .error (.overflowError f.name)
  | .tFloat w =>
      match parseFloatGo raw.toList with
      | .error _ => .error (.castingError raw f.name)
      | .ok (n, e) =>
          if overflowFloatGo w n e then .error (.overflowError f.name)
          else .ok (.vFloat n e)
  | .tTime =>
      let layout := f.formatTag.getD rfc3339Layout
      match goTimeParse layout raw.toList with
      | some (y, m, d) => .ok (.vTime y m d)
      | none => .error (.castingError raw f.name)
  | .tUnsupported => .error (.invalidTypeError f.name)

/-- UTF-8 byte length of a rune sequence. -/
def byteLen (cs : List Char) : Nat := cs.foldl (fun n c => n + c.utf8Size) 0

/-- One-pass scan behind headerSplit: acc holds the current match's runes in
reverse, inRun records that the match has reached its trailing separator run,
sb is the match's starting byte offset and cb the offset one past the runes
consumed so far.  A non-separator rune arriving while inRun ends the match
(the separator run was maximal) and starts the next one; the end of the line
ends the final match.  Emitted names have every separator removed. -/
def headerSplitGo (sep : Char) :
    List Char → List Char → Bool → Nat → Nat → List (String × Nat × Nat)
  | [], acc, _, sb, cb =>
      [(String.mk (acc.reverse.filter (fun x => x ≠ sep)), sb, cb)]
  | c :: cs, acc, inRun, sb, cb =>
      if inRun ∧ c ≠ sep then
        (String.mk (acc.reverse.filter (fun x => x ≠ sep)), sb, cb) ::
          headerSplitGo sep cs [c] false cb (cb + c.utf8Size)
      else
        headerSplitGo sep cs (c :: acc) (inRun ∨ c = sep) sb (cb + c.utf8Size)

/-- Models, for a single-character separator, the match positions that Go
regexp FindAllStringIndex yields for the header pattern ".+?(?:sep+|$)"
together with the name cleanup trimRegexp.ReplaceAllString(header, "")
(decoder.go parseHeaders): each match is a minimal nonempty rune sequence up
to the next separator or line end, extended greedily over the following
separator run; the offsets recorded are BYTE offsets into the UTF-8 encoding
of the header, exactly as FindAllStringIndex reports them, starting from b;
the column name is the matched text with every separator run removed. -/
def headerSplit (sep : Char) (cs : List Char) (b : Nat) :
    List (String × Nat × Nat) :=
  match cs with
  | [] => []
  | c :: rest => headerSplitGo sep rest [c] false b (b + c.utf8Size)

/-- A resolved layout: column name to half-open range, in header order, as the
Go map decoder.headers holds it. -/
abbrev Layout := List (String × Nat × Nat)

/-- Column lookup; a duplicated name behaves like Go map insertion, where the
last write wins. -/
def lookupHeader (hs : Layout) (n : String) : Option (Nat × Nat) :=
  (hs.reverse.find? (fun e => e.1 == n)).map (fun e => e.2)

/-- Regex metacharacters: a separator containing one of these is outside the
single-literal-character fragment modelled by compileSep. -/
def regexMeta : List Char :=
  ['\\', '+', '*', '?', '(', ')', '|', '[', ']', '^', '$', '.', '\x7b', '\x7d']

/-- Models regexp.Compile applied to the template ".+?(?:SEP+|$)" that
parseHeaders builds (decoder.go line 210), on the separator fragment this
development needs: a separator that is exactly one literal non-metacharacter
compiles to that character.  Anything else — the empty separator, a
multi-character separator, or one containing a metacharacter — is outside the
modelled fragment and mapped to a compile failure; the only such separator any
theorem below instantiates is "(", which Go regexp also rejects (the template
becomes ".+?(?:(+|$)", a missing argument to a repetition operator). -/
def compileSep (sep : String) : Except FwError Char :=
  match sep.toList with
  | [c] => if c ∈ regexMeta then .error .regexError else .ok c
  | _ => .error .regexError

/-- Models Decoder.scan splitting the stream on a single-character record
terminator (default newline): terminator-separated records, an empty token for
each adjacent pair of terminators, a final unterminated tail kept as one last
record, and a trailing terminator producing no empty final record. -/
def splitRecords (term : Char) : List Char → List (List Char)
  | [] => []
  | c :: cs =>
      if c = term then [] :: splitRecords term cs
      else
        match splitRecords term cs with
        | [] => [[c]]
        | r :: rs => (c :: r) :: rs

/-- Per-stream decoder session state (the Decoder struct of decoder.go), with
the scanner modelled as the list of records it has yet to produce.  Records
are rune lists. -/
structure DecoderState where
  input : List (List Char)
  fieldSeparator : String := " "
  done : Bool := false
  headersParsed : Bool := false
  headersLength : Nat := 0
  skipFirstRecord : Bool := false
  lineNum : Nat := 0
  headers : Layout := []
deriving DecidableEq, Repr

/-- A fresh decoder over an input string, as NewDecoder builds it with the
default newline terminator and space separator. -/
def initDecoder (s : String) : DecoderState :=
  { input := splitRecords '\n' s.toList }

/-- Models parseHeaders (decoder.go): returns immediately when headers are
parsed and the first record is not to be skipped; compiles the header regexp
from the field separator, propagating a compile failure; scans one record,
marking the stream done (without error) when none is available; consumes the
record without parsing when headers were supplied and skipping was requested;
otherwise records the header's rune count as headersLength and the
FindAllStringIndex byte ranges as the headers map. -/
def parseHeadersM (d : DecoderState) : Except FwError DecoderState :=
  if d.headersParsed ∧ ¬d.skipFirstRecord then .ok d
  else
    match compileSep d.fieldSeparator with
    | .error e => .error e
    | .ok sep =>
        match d.input with
        | [] => .ok { d with done := true }
        | line :: rest =>
            let d1 := { d with input := rest, lineNum := d.lineNum + 1 }
            if d1.headersParsed ∧ d1.skipFirstRecord then .ok d1
            else
              .ok { d1 with
                      headersLength := line.length,
                      headers := headerSplit sep line 0,
                      headersParsed := true }

/-- One compiled decoding-plan step (createStructSetter, setters.go): target
field index, the field's metadata, and the column range taken from the headers
map. -/
structure Step where
  idx : Nat
  field : Field
  colFrom : Nat
  colTo : Nat
deriving DecidableEq, Repr

/-- Models the getFieldSetter classification outcome needed at compile time:
every modelled type except the unsupported class has a setter; the unsupported
class yields InvalidTypeError. -/
def fieldSetterOk (f : Field) : Except FwError Unit :=
  match f.ftype with
  | .tUnsupported => .error (.invalidTypeError f.name)
  | _ => .ok ()

/-- Models the field loop of createStructSetter (setters.go): walk the struct
fields in order; unexported fields are skipped; an exported field whose
effective column name is absent from the headers map is skipped silently; for
a present column the field's setter is resolved (propagating
InvalidTypeError) and a step is emitted. -/
def mkSteps : List Field → Nat → Layout → Except FwError (List Step)
  | [], _, _ => .ok []
  | f :: rest, i, hs =>
      if f.exported then
        match lookupHeader hs (getRefName f) with
        | some (a, b) =>
            match fieldSetterOk f with
            | .error e => .error e
            | .ok _ =>
                match mkSteps rest (i + 1) hs with
                | .error e => .error e
                | .ok steps => .ok (⟨i, f, a, b⟩ :: steps)
        | none => mkSteps rest (i + 1) hs
      else mkSteps rest (i + 1) hs

/-- Models the leftTrimmer/rightTrimmer regexps of createStructSetter for a
single-character separator: remove the leading run and the trailing run of the
separator. -/
def trimSep (sep : Char) (cs : List Char) : List Char :=
  ((cs.dropWhile (fun x => x = sep)).reverse.dropWhile (fun x => x = sep)).reverse

/-- A record under construction: one value per struct field, by position. -/
abbrev Record := List Val

/-- The record whose every field holds its Go zero value, as reflect.New
produces it. -/
def zeroRecord (fields : List Field) : Record :=
  fields.map (fun f => zeroVal f.ftype)

/-- Models valueSetterFunc (setters.go): slice the rune range [colFrom, colTo)
out of the line, trim separator runs from both ends, convert, and store the
value at the step's field index.  Go's slice expression panics when the range
exceeds the line; the model totalises it with drop/take, which agree with Go
on every in-range access. -/
def applyStep (sep : Char) (st : Step) (r : Record) (line : List Char) :
    Except FwError Record :=
  let fieldRunes := (line.drop st.colFrom).take (st.colTo - st.colFrom)
  let raw := String.mk (trimSep sep fieldRunes)
  match fieldSet st.field.ftype st.field raw with
  | .error e => .error e
  | .ok v => .ok (r.set st.idx v)

/-- Models structSetterFunc (setters.go): apply the plan's steps in order,
stopping at the first failure; the record keeps every assignment made by the
steps that already ran. -/
def runSteps (sep : Char) : List Step → Record → List Char → Record × Option FwError
  | [], r, _ => (r, none)
  | st :: rest, r, line =>
      match applyStep sep st r line with
      | .error e => (r, some e)
      | .ok r2 => runSteps sep rest r2 line

/-- All-success run of a step list; none as soon as any step fails.  Used to
state which record the partial run of a failing plan has built. -/
def runStepsOk (sep : Char) : List Step → Record → List Char → Option Record
  | [], r, _ => some r
  | st :: rest, r, line =>
      match applyStep sep st r line with
      | .error _ => none
      | .ok r2 => runStepsOk sep rest r2 line

/-- Models readLine (decoder.go): scan one record — none left marks the
stream done with no error and no record; otherwise count the line, check the
record's rune length against headersLength, failing with the length-mismatch
error before anything else runs; then compile the struct setter for the
target's shape (cachedStructSetter) and apply it, reporting its first
conversion failure with the ok flag still true. -/
def readLineM (shape : List Field) (d : DecoderState) (r : Record) :
    DecoderState × Record × Option FwError × Bool :=
  match d.input with
  | [] => ({ d with done := true }, r, none, false)
  | line :: rest =>
      let d1 := { d with input := rest, lineNum := d.lineNum + 1 }
      if line.length ≠ d1.headersLength then
        (d1, r, some (.lengthError d1.lineNum line.length d1.headersLength), false)
      else
        match compileSep d1.fieldSeparator with
        | .error e => (d1, r, some e, false)
        | .ok sep =>
            match mkSteps shape 0 d1.headers with
            | .error e => (d1, r, some e, false)
            | .ok steps =>
                let out := runSteps sep steps r line
                (d1, out.1, out.2, true)

/-- Models readLines (decoder.go): repeatedly read one record into a freshly
allocated zero record; any error stops the loop at once (records already
appended stay appended — the returned list holds the appends this call made);
a record read with ok appends; the loop ends when the done flag is set,
returning no error and ok. -/
def readLinesF (shape : List Field) :
    Nat → DecoderState → DecoderState × List Record × Option FwError × Bool
  | 0, d => ({ d with done := true }, [], none, true)
  | fuel + 1, d =>
      let s := readLineM shape d (zeroRecord shape)
      match s.2.2.1 with
      | some e => (s.1, [], some e, false)
      | none =>
          let recs := if s.2.2.2 then [s.2.1] else []
          if s.1.done then (s.1, recs, none, true)
          else
            let t := readLinesF shape fuel s.1
            (t.1, recs ++ t.2.1, t.2.2.1, t.2.2.2)

/-- Fuel-free entry for the loop: every iteration either sets done or consumes
one input record, so one unit of fuel beyond the input length always suffices,
and the fuel-zero arm (which mirrors the exhausted-stream exit, an empty scan
marking the session done) is never reached. -/
def readLinesM (shape : List Field) (d : DecoderState) :
    DecoderState × List Record × Option FwError × Bool :=
  readLinesF shape (d.input.length + 1) d

/-- Models Decode (decoder.go) for a slice target of the given shape: a done
session fails at once with the processing-already-complete error, touching
nothing; otherwise headers are resolved (errors propagate) and readLines runs;
when the stream was exhausted with no error and no read, io.EOF is reported —
on the slice path readLines reports ok, so an empty stream yields an empty
success.  The decoded records are the elements the call appended. -/
def decodeSliceM (shape : List Field) (d : DecoderState) :
    DecoderState × Except FwError (List Record) :=
  if d.done then (d, .error .processingComplete)
  else
    match parseHeadersM d with
    | .error e => (d, .error e)
    | .ok d1 =>
        let t := readLinesM shape d1
        match t.2.2.1 with
        | some e => (t.1, .error e)
        | none =>
            if t.1.done ∧ ¬t.2.2.2 then (t.1, .error .eof)
            else (t.1, .ok t.2.1)

/-- Models Decode (decoder.go) for a struct target: a done session fails at
once with the processing-already-complete error; otherwise headers are
resolved and one record is read into the caller's value; an exhausted stream
with nothing read reports io.EOF. -/
def decodeStructM (shape : List Field) (d : DecoderState) (r : Record) :
    DecoderState × Record × Except FwError Unit :=
  if d.done then (d, r, .error .processingComplete)
  else
    match parseHeadersM d with
    | .error e => (d, r, .error e)
    | .ok d1 =>
        let t := readLineM shape d1 r
        match t.2.2.1 with
        | some e => (t.1, t.2.1, .error e)
        | none =>
            if t.1.done ∧ ¬t.2.2.2 then (t.1, t.2.1, .error .eof)
            else (t.1, t.2.1, .ok ())

/-- Target shape of the README/spec example: a string field mapped to column
name and a time.Time field mapped to column dob with a format annotation whose
pattern matches YYYY-MM-DD. -/
def personShape : List Field :=
  [{ name := "Name", columnTag := some "name", ftype := .tString },
   { name := "DOB", columnTag := some "dob", formatTag := some "2006-01-02",
     ftype := .tTime }]

/-- The example stream: a header line and two data rows. -/
def personInput : String :=
  "name    dob       \nPeter   2008-10-11\nNicki   1987-01-28"

/-- Single-field shape reading column x as a string. -/
def xShape : List Field := [{ name := "X", columnTag := some "x", ftype := .tString }]

/-- A session whose stream is already exhausted: the done flag is set. -/
def doneState : DecoderState := { input := [], done := true }

/-- A fresh session over an empty stream, header inference still pending. -/
def emptyState : DecoderState := { input := [] }

/-- A session positioned after header resolution of the person example, one
short data row remaining. -/
def shortRowState : DecoderState :=
  { input := ["Peter 2008-10-11".toList], headersParsed := true,
    headersLength := 18, lineNum := 1,
    headers := [("name", 0, 8), ("dob", 8, 18)] }

/-- Numeric parse applied before the width check, as the claim families see
it: the signed family goes through ParseInt(raw, 10, 0) (platform int,
modelled as 64 bits), the unsigned family through TrimSpace then
ParseUint(raw, 10, 64), the floating-point family through
ParseFloat(raw, 64); other types have no numeric parse.  The result is the
parsed value as a scaled integer n / 10^e; the integer families always carry
scale 0. -/
def numericParse (ft : FType) (raw : String) : Except ParseErr (Int × Nat) :=
  match ft with
  | .tInt _ => (parseIntGo raw.toList 64).map (fun v => (v, 0))
  | .tUint _ =>
      (parseUintGo (String.mk (trimSpaceGo raw.toList)).toList 64).map
        (fun v => ((v : Int), 0))
  | .tFloat _ => parseFloatGo raw.toList
  | _ => .error .synErr

/-- The destination width admits the parsed value: reflect
OverflowInt/OverflowUint/OverflowFloat negated.  The integer families always
parse to scale 0, so their check reads the integer directly; the float check
mirrors OverflowFloat on the exact decimal value (a float64 destination never
overflows). -/
def numFits (ft : FType) (p : Int × Nat) : Prop :=
  match ft with
  | .tInt w => -(2 ^ (w - 1) : Int) ≤ p.1 ∧ p.1 < 2 ^ (w - 1)
  | .tUint w => 0 ≤ p.1 ∧ p.1 < 2 ^ w
  | .tFloat w => overflowFloatGo w p.1 p.2 = false
  | _ => True

/-- A signed 64-bit field named Big. -/
def bigField : Field := { name := "Big", ftype := .tInt 64 }

/-- A signed 8-bit field named I8. -/
def i8Field : Field := { name := "I8", ftype := .tInt 8 }

/-- A 32-bit float field named F32. -/
def f32Field : Field := { name := "F32", ftype := .tFloat 32 }

/-- A 64-bit float field named F64. -/
def f64Field : Field := { name := "F64", ftype := .tFloat 64 }

/-- A boolean field named Flag. -/
def flagField : Field := { name := "Flag", ftype := .tBool }

/-- A 310-digit decimal, 2 * 10^309, beyond the finite range of float64 (and
far beyond the width of every numeric destination). -/
def hugeDecimal : String :=
  "2000000000000000000000000000000000000000000000000000000000000000000000000000000000000000000000000000000000000000000000000000000000000000000000000000000000000000000000000000000000000000000000000000000000000000000000000000000000000000000000000000000000000000000000000000000000000000000000000000000000000000000000"

/-- Two-step plan for the C9 witness: a string column and a signed 8-bit
column. -/
def abSteps : List Step :=
  [{ idx := 0, field := { name := "Name", ftype := .tString }, colFrom := 0, colTo := 3 },
   { idx := 1, field := { name := "Age", ftype := .tInt 8 }, colFrom := 3, colTo := 6 }]

instance numFitsDecidable (ft : FType) (p : Int × Nat) :
    Decidable (numFits ft p) := by
  unfold numFits
  cases ft <;> exact inferInstance

/-- Shape whose second exported field's effective column name (its own name,
Missing) appears in no layout used with it. -/
def c4Fields : List Field :=
  [{ name := "Name", columnTag := some "name", ftype := .tString },
   { name := "Missing", ftype := .tInt 8 }]

/-- The person example's layout, which has no column named Missing. -/
def c4Layout : Layout := [("name", 0, 8), ("dob", 8, 18)]

/-- The plan compiled for c4Fields against c4Layout: one step, for the Name
field only. -/
def c4Steps : List Step :=
  [{ idx := 0, field := { name := "Name", columnTag := some "name", ftype := .tString },
     colFrom := 0, colTo := 8 }]

/-- C1: decoding the stream whose header line is "name    dob       " and
whose rows are "Peter   2008-10-11" and "Nicki   1987-01-28" into a slice of
the two-field shape (Name from column name, DOB from column dob with the
YYYY-MM-DD format annotation) succeeds and yields exactly the records
(Peter, 2008-10-11) and (Nicki, 1987-01-28), in that order. -/
theorem c1_example_decode :
    (decodeSliceM personShape (initDecoder personInput)).2 =
      .ok [[.vStr "Peter", .vTime 2008 10 11], [.vStr "Nicki", .vTime 1987 1 28]] := by
  decide

/-- C5 (code bug): for the multi-byte header "α x" the inferred ranges are the
FindAllStringIndex BYTE offsets — ("α", 0, 3) and ("x", 3, 4) — although the
first column spans only 2 characters and the whole header 3; the layout's
total length is counted in characters (3), so the 3-character row "9 b" passes
the length check, but extraction applies the byte offsets to rune positions
and reads "" for column x where the character-measured range would read "b". -/
theorem c5_multibyte_header_misaligns :
    headerSplit ' ' "α x".toList 0 = [("α", 0, 3), ("x", 3, 4)] ∧
    ("α ".toList.length = 2 ∧ "α x".toList.length = 3) ∧
    (decodeSliceM xShape (initDecoder "α x\n9 b")).2 = .ok [[.vStr ""]] ∧
    Val.vStr "" ≠ Val.vStr "b" := by
  decide

/-- C6 (amended): once the done flag is set, any further decode call — slice
or struct target — fails immediately with the distinct processing-already-
complete error, returning the session state untouched: no header resolution
reruns and no input is read. -/
theorem c6_done_fails_fast (shape : List Field) (d : DecoderState) (r : Record)
    (h : d.done = true) :
    decodeSliceM shape d = (d, .error .processingComplete) ∧
    decodeStructM shape d r = (d, r, .error .processingComplete) := by
  simp [decodeSliceM, decodeStructM, h]

/-- Witness for c6_done_fails_fast at a concrete exhausted session. -/
theorem c6_done_fails_fast_witness :
    decodeSliceM personShape doneState = (doneState, .error .processingComplete) ∧
    decodeStructM personShape doneState [] =
      (doneState, [], .error .processingComplete) :=
  ⟨(c6_done_fails_fast personShape doneState [] rfl).1,
   (c6_done_fails_fast personShape doneState [] rfl).2⟩

/-- C6 counterexample: the distinct error's message is "processing already
complete" (decoder.go line 89), not "decoding already complete" as the claim
quotes it. -/
theorem c6_message_differs :
    (decodeSliceM personShape doneState).2 = .error .processingComplete ∧
    FwError.message .processingComplete = "processing already complete" ∧
    FwError.message .processingComplete ≠ "decoding already complete" := by
  decide

/-- C7 (amended): with header inference pending, an invalid field-separator
pattern makes header resolution — and the decode call that triggered it —
fail with the compile error propagated to the caller, the session state
untouched. -/
theorem c7_bad_separator_propagates (shape : List Field) (d : DecoderState)
    (e : FwError) (h1 : d.done = false) (h2 : d.headersParsed = false)
    (h3 : compileSep d.fieldSeparator = .error e) :
    parseHeadersM d = .error e ∧ decodeSliceM shape d = (d, .error e) := by
  refine ⟨?_, ?_⟩ <;> simp [parseHeadersM, decodeSliceM, h1, h2, h3]

/-- Witness for c7_bad_separator_propagates: the separator "(" makes the
header pattern ".+?(?:(+|$)" invalid, and the failure reaches the caller. -/
theorem c7_bad_separator_witness :
    parseHeadersM { input := [], fieldSeparator := "(" } = .error .regexError ∧
    decodeSliceM personShape { input := [], fieldSeparator := "(" } =
      ({ input := [], fieldSeparator := "(" }, .error .regexError) :=
  c7_bad_separator_propagates personShape { input := [], fieldSeparator := "(" }
    .regexError rfl rfl rfl

/-- C7 counterexample: a stream with no record to serve as the header does NOT
make layout resolution fail — parseHeaders merely marks the session done and
returns no error; a slice decode then succeeds with an empty result, and a
struct decode reports the io.EOF end-of-stream signal rather than a
header-resolution error. -/
theorem c7_empty_stream_no_error :
    parseHeadersM emptyState = .ok { emptyState with done := true } ∧
    decodeSliceM personShape emptyState =
      ({ emptyState with done := true }, .ok []) ∧
    (decodeStructM personShape emptyState (zeroRecord personShape)).2.2 =
      .error .eof := by
  decide

/-- No value setter ever produces the length-mismatch error: that error is
built in readLine alone. -/
theorem fieldSet_no_lengthError (ft : FType) (f : Field) (raw : String)
    (n a e : Nat) : fieldSet ft f raw ≠ .error (.lengthError n a e) := by
  cases ft <;> simp only [fieldSet] <;> intro h <;>
    (try split at h) <;> (try split at h) <;> simp_all

/-- No plan step ever produces the length-mismatch error. -/
theorem applyStep_no_lengthError (sep : Char) (st : Step) (r : Record)
    (line : List Char) (n a e : Nat) :
    applyStep sep st r line ≠ .error (.lengthError n a e) := by
  intro h
  simp only [applyStep] at h
  split at h
  · rename_i err heq
    rw [show err = FwError.lengthError n a e by simpa using h] at heq
    exact fieldSet_no_lengthError _ _ _ _ _ _ heq
  · simp at h

/-- Applying a plan never reports the length-mismatch error. -/
theorem runSteps_no_lengthError (sep : Char) (steps : List Step) (r : Record)
    (line : List Char) (n a e : Nat) :
    (runSteps sep steps r line).2 ≠ some (.lengthError n a e) := by
  induction steps generalizing r with
  | nil => simp [runSteps]
  | cons st rest ih =>
      simp only [runSteps]
      split
      · rename_i err heq
        intro h
        rw [show err = FwError.lengthError n a e by simpa using h] at heq
        exact applyStep_no_lengthError _ _ _ _ _ _ _ heq
      · rename_i r2 _
        exact ih r2

/-- Setter resolution fails only with InvalidTypeError. -/
theorem fieldSetterOk_error_eq (f : Field) (e : FwError)
    (h : fieldSetterOk f = .error e) : e = .invalidTypeError f.name := by
  unfold fieldSetterOk at h
  split at h <;> simp_all

/-- Plan compilation fails only with InvalidTypeError. -/
theorem mkSteps_error_invalid (fields : List Field) (k : Nat) (hs : Layout)
    (err : FwError) (h : mkSteps fields k hs = .error err) :
    ∃ nm, err = .invalidTypeError nm := by
  induction fields generalizing k with
  | nil => simp [mkSteps] at h
  | cons f rest ih =>
      simp only [mkSteps] at h
      split at h
      · split at h
        · split at h
          · rename_i e1 heq
            have he : e1 = err := by simpa using h
            exact ⟨f.name, he.symm.trans (fieldSetterOk_error_eq f e1 heq)⟩
          · split at h
            · rename_i e2 heq2
              have he : e2 = err := by simpa using h
              rw [he] at heq2
              exact ih (k + 1) heq2
            · simp at h
        · exact ih (k + 1) h
      · exact ih (k + 1) h

/-- Separator compilation fails only with the regexp compile error. -/
theorem compileSep_error_eq (s : String) (e : FwError)
    (h : compileSep s = .error e) : e = .regexError := by
  unfold compileSep at h
  split at h
  · split at h <;> simp_all
  · simp_all

/-- C2: whenever the next scanned record's rune length differs from the
resolved headersLength, readLine fails with the length-mismatch error
carrying the incremented line number, the actual length and the expected
length, before anything else runs; and resolving headers from a stream's
first record consumes exactly that record and counts it in lineNum, so the
header is line 1 and the k-th data record is line k+1. -/
theorem c2_length_mismatch_error :
    (∀ (shape : List Field) (d : DecoderState) (r : Record) (line : List Char)
        (rest : List (List Char)),
        d.input = line :: rest → line.length ≠ d.headersLength →
        readLineM shape d r =
          ({ d with input := rest, lineNum := d.lineNum + 1 }, r,
            some (.lengthError (d.lineNum + 1) line.length d.headersLength),
            false)) ∧
    (∀ (d : DecoderState) (header : List Char) (rows : List (List Char)),
        d.input = header :: rows → d.fieldSeparator = " " →
        d.headersParsed = false →
        parseHeadersM d =
          .ok { d with
                  input := rows
                  lineNum := d.lineNum + 1
                  headersLength := header.length
                  headers := headerSplit ' ' header 0
                  headersParsed := true }) := by
  constructor
  · intro shape d r line rest hin hlen
    simp [readLineM, hin, hlen]
  · intro d header rows hin hsep hhp
    have hc : compileSep " " = .ok ' ' := rfl
    simp [parseHeadersM, hin, hsep, hhp, hc]

/-- Witness for c2_length_mismatch_error: the 16-character row
"Peter 2008-10-11" against the 18-character person layout fails as line 2
with lengths 16 and 18, and resolving the person example's header consumes
the header as line 1. -/
theorem c2_length_mismatch_error_witness :
    readLineM personShape shortRowState (zeroRecord personShape) =
      ({ shortRowState with input := [], lineNum := 2 },
        zeroRecord personShape, some (.lengthError 2 16 18), false) ∧
    parseHeadersM (initDecoder personInput) =
      .ok { initDecoder personInput with
              input := ["Peter   2008-10-11".toList, "Nicki   1987-01-28".toList]
              lineNum := 1
              headersLength := 18
              headers := [("name", 0, 8), ("dob", 8, 18)]
              headersParsed := true } := by
  constructor
  · exact c2_length_mismatch_error.1 personShape shortRowState
      (zeroRecord personShape) "Peter 2008-10-11".toList [] rfl (by decide)
  · exact c2_length_mismatch_error.2 (initDecoder personInput)
      "name    dob       ".toList
      ["Peter   2008-10-11".toList, "Nicki   1987-01-28".toList]
      (by decide) rfl rfl

/-- C10: a decode of one record that reports the length-mismatch error has
run no field setter: the target record is returned exactly as it was passed
in (and the read is flagged not ok).  The length check precedes plan
compilation and application in readLine, and no setter can produce that
error. -/
theorem c10_length_mismatch_atomic (shape : List Field) (d : DecoderState)
    (r : Record) (n a e : Nat)
    (h : (readLineM shape d r).2.2.1 = some (.lengthError n a e)) :
    (readLineM shape d r).2.1 = r ∧ (readLineM shape d r).2.2.2 = false := by
  rcases hin : d.input with _ | ⟨line, rest⟩
  · simp [readLineM, hin] at h
  · simp only [readLineM, hin] at h ⊢
    split at h
    · rename_i hcond
      rw [if_pos hcond]
      exact ⟨rfl, rfl⟩
    · rename_i hcond
      exfalso
      split at h
      · rename_i err heq
        have h1 : err = FwError.lengthError n a e := by simpa using h
        have h2 : err = FwError.regexError := compileSep_error_eq _ _ heq
        exact absurd (h1.symm.trans h2) (by simp)
      · rename_i sep heq
        split at h
        · rename_i err2 heq2
          obtain ⟨nm, hnm⟩ := mkSteps_error_invalid shape 0 _ err2 heq2
          rw [hnm] at h
          simp at h
        · rename_i steps heq2
          simp only at h
          exact runSteps_no_lengthError sep steps r line n a e h

/-- Witness for c10_length_mismatch_atomic: the short row of shortRowState
triggers the length-mismatch error and the target record comes back exactly
as passed in. -/
theorem c10_length_mismatch_atomic_witness :
    (readLineM personShape shortRowState (zeroRecord personShape)).2.1 =
      zeroRecord personShape ∧
    (readLineM personShape shortRowState (zeroRecord personShape)).2.2.2 =
      false :=
  c10_length_mismatch_atomic personShape shortRowState (zeroRecord personShape)
    2 16 18 (by decide)

/-- Every step a successful plan compilation emits records a field that sits
at the step's index (relative to the start index) and whose effective column
name is present in the layout. -/
theorem mkSteps_idx_mem (fields : List Field) (k : Nat) (hs : Layout)
    (steps : List Step) (h : mkSteps fields k hs = .ok steps) :
    ∀ st ∈ steps, ∃ j, st.idx = k + j ∧ fields.get? j = some st.field ∧
      (lookupHeader hs (getRefName st.field)).isSome := by
  induction fields generalizing k steps with
  | nil =>
      simp only [mkSteps] at h
      have hsteps : steps = [] := by simpa using h.symm
      subst hsteps
      simp
  | cons f rest ih =>
      by_cases hexp : f.exported = true
      · rcases hlook : lookupHeader hs (getRefName f) with _ | ⟨a, b⟩
        · simp only [mkSteps, if_pos hexp, hlook] at h
          intro st hst
          obtain ⟨j, hj1, hj2, hj3⟩ := ih (k + 1) steps h st hst
          exact ⟨j + 1, by omega, by simpa using hj2, hj3⟩
        · simp only [mkSteps, if_pos hexp, hlook] at h
          rcases hok : fieldSetterOk f with e1 | u
          · rw [hok] at h
            simp at h
          · rw [hok] at h
            rcases hrec : mkSteps rest (k + 1) hs with e2 | steps2
            · rw [hrec] at h
              simp at h
            · rw [hrec] at h
              have hsteps : steps = ⟨k, f, a, b⟩ :: steps2 := by
                simpa using h.symm
              subst hsteps
              intro st hst
              rcases List.mem_cons.1 hst with rfl | hmem
              · exact ⟨0, by simp, by simp, by simp [hlook]⟩
              · obtain ⟨j, hj1, hj2, hj3⟩ := ih (k + 1) steps2 hrec st hmem
                exact ⟨j + 1, by omega, by simpa using hj2, hj3⟩
      · simp only [mkSteps, if_neg hexp] at h
        intro st hst
        obtain ⟨j, hj1, hj2, hj3⟩ := ih (k + 1) steps h st hst
        exact ⟨j + 1, by omega, by simpa using hj2, hj3⟩

/-- Running a plan none of whose steps targets index i leaves the record's
i-th field untouched. -/
theorem runSteps_untouched (sep : Char) (steps : List Step) (r : Record)
    (line : List Char) (i : Nat) (h : ∀ st ∈ steps, st.idx ≠ i) :
    ((runSteps sep steps r line).1).get? i = r.get? i := by
  induction steps generalizing r with
  | nil => simp [runSteps]
  | cons st rest ih =>
      simp only [runSteps]
      split
      · simp
      · rename_i r2 heq
        have hr2 : r2.get? i = r.get? i := by
          simp only [applyStep] at heq
          split at heq
          · exact Except.noConfusion heq
          · rename_i v hfs
            have hset : r.set st.idx v = r2 := by simpa using heq
            rw [← hset]
            exact List.get?_set_ne _ _ (h st (List.mem_cons_self _ _))
        rw [ih r2 (fun s hs => h s (List.mem_cons_of_mem st hs)), hr2]

/-- C4: an exported field whose effective column name is absent from the
layout is silently omitted from the compiled plan — no step targets it — so
for every input record decoding neither touches it nor errors on it: running
the plan preserves the field's slot, and from the zero record it stays at its
type's zero value. -/
theorem c4_absent_column_skipped (fields : List Field) (hs : Layout) (i : Nat)
    (f : Field) (hf : fields.get? i = some f) (_hexp : f.exported = true)
    (habs : lookupHeader hs (getRefName f) = none) (steps : List Step)
    (hc : mkSteps fields 0 hs = .ok steps) :
    (∀ st ∈ steps, st.idx ≠ i) ∧
    (∀ (sep : Char) (r : Record) (line : List Char),
        ((runSteps sep steps r line).1).get? i = r.get? i) ∧
    (∀ (sep : Char) (line : List Char),
        ((runSteps sep steps (zeroRecord fields) line).1).get? i =
          some (zeroVal f.ftype)) := by
  have hidx : ∀ st ∈ steps, st.idx ≠ i := by
    intro st hst hEq
    obtain ⟨j, hj1, hj2, hj3⟩ := mkSteps_idx_mem fields 0 hs steps hc st hst
    have hji : j = i := by omega
    subst hji
    rw [hf] at hj2
    have hfst : f = st.field := by simpa using hj2
    rw [← hfst, habs] at hj3
    simp at hj3
  refine ⟨hidx, fun sep r line => runSteps_untouched sep steps r line i hidx,
    fun sep line => ?_⟩
  rw [runSteps_untouched sep steps _ line i hidx]
  simp only [zeroRecord]
  rw [List.get?_map, hf]
  rfl

/-- Witness for c4_absent_column_skipped: the Missing field of c4Fields has no
column in c4Layout; the compiled plan is c4Steps, which never touches index 1,
and decoding the person example's first row leaves the field at zero. -/
theorem c4_absent_column_skipped_witness :
    ((runSteps ' ' c4Steps (zeroRecord c4Fields)
        "Peter   2008-10-11".toList).1).get? 1 = some (zeroVal (.tInt 8)) :=
  (c4_absent_column_skipped c4Fields c4Layout 1
      { name := "Missing", ftype := .tInt 8 } (by decide) (by decide)
      (by decide) c4Steps (by decide)).2.2 ' ' "Peter   2008-10-11".toList

/-- C9: when applying a plan returns a conversion failure, there is a step at
which it happened: every earlier step succeeded, in field order, producing
exactly the record the caller is left with — earlier assignments intact, no
rollback — and the failing step's error is the one returned. -/
theorem c9_first_failure_kept_assignments (sep : Char) (steps : List Step)
    (r r2 : Record) (line : List Char) (e : FwError)
    (h : runSteps sep steps r line = (r2, some e)) :
    ∃ n st, steps.get? n = some st ∧
      runStepsOk sep (steps.take n) r line = some r2 ∧
      applyStep sep st r2 line = .error e := by
  induction steps generalizing r with
  | nil => simp [runSteps, Prod.ext_iff] at h
  | cons st0 rest ih =>
      simp only [runSteps] at h
      split at h
      · rename_i e1 heq
        obtain ⟨hr, he⟩ : r = r2 ∧ e1 = e := by
          simpa [Prod.ext_iff] using h
        subst hr
        subst he
        exact ⟨0, st0, rfl, by simp [runStepsOk], heq⟩
      · rename_i rr heq
        obtain ⟨n, st, h1, h2, h3⟩ := ih rr h
        exact ⟨n + 1, st, by simpa using h1,
          by simp [runStepsOk, heq]; exact h2, h3⟩

/-- Witness for c9_first_failure_kept_assignments: on the two-step plan
abSteps over the line "ab xxx", the first step assigns Name := "ab", the
second fails casting "xxx"; the returned record keeps the Name assignment. -/
theorem c9_first_failure_kept_assignments_witness :
    ∃ n st, abSteps.get? n = some st ∧
      runStepsOk ' ' (abSteps.take n) [Val.vStr "", Val.vInt 0]
          "ab xxx".toList = some [Val.vStr "ab", Val.vInt 0] ∧
      applyStep ' ' st [Val.vStr "ab", Val.vInt 0] "ab xxx".toList =
        .error (.castingError "xxx" "Age") :=
  c9_first_failure_kept_assignments ' ' abSteps [Val.vStr "", Val.vInt 0]
    [Val.vStr "ab", Val.vInt 0] "ab xxx".toList
    (.castingError "xxx" "Age") (by decide)

set_option maxRecDepth 2000 in
/-- C3 counterexample, one failing input per family shape: the input
9223372036854775808 (2^63) exceeds the declared width of a 64-bit signed
destination, yet conversion fails with CastingError, not OverflowError —
intSet parses with ParseInt(raw, 10, 0), whose own 64-bit range check fails
first with ErrRange, which intSet wraps as a casting failure; likewise the
310-digit input 2 * 10^309 exceeds a float32 destination's width (and
float64's finite range), yet floatSet's ParseFloat(raw, 64) fails first with
ErrRange and the result is again CastingError. -/
theorem c3_wide_value_is_casting_failure :
    fieldSet (.tInt 64) bigField "9223372036854775808" =
      .error (.castingError "9223372036854775808" "Big") ∧
    ¬ numFits (.tInt 64) (2 ^ 63, 0) ∧
    fieldSet (.tFloat 32) f32Field hugeDecimal =
      .error (.castingError hugeDecimal "F32") ∧
    ¬ numFits (.tFloat 32) (((2 * 10 ^ 309 : Nat) : Int), 0) ∧
    numericParse (.tFloat 32) hugeDecimal = .error .rangeErr ∧
    FwError.castingError "9223372036854775808" "Big" ≠
      .overflowError "Big" := by
  refine ⟨by decide, by decide, by decide, by decide, by decide, by decide⟩

/-- C3 (amended): for a signed integer, unsigned integer or floating-point
field, an input whose value parses within the 64-bit parse range but exceeds
the destination's declared width fails with OverflowFailure — never
CastingFailure; an input beyond the parse range itself (past int64/uint64 for
the integer families, past float64's finite range for floats) fails the parse
and is reported as CastingFailure instead.  A float64 destination cannot
overflow: reflect OverflowFloat is constantly false there. -/
theorem c3_overflow_not_casting (ft : FType) (f : Field) (raw : String)
    (p : Int × Nat) (hp : numericParse ft raw = .ok p) (hov : ¬ numFits ft p) :
    fieldSet ft f raw = .error (.overflowError f.name) := by
  obtain ⟨v, e⟩ := p
  cases ft with
  | tInt w =>
      simp only [numericParse] at hp
      rcases hi : parseIntGo raw.toList 64 with pe | pv
      · rw [hi] at hp
        simp [Except.map] at hp
      · rw [hi] at hp
        simp only [Except.map] at hp
        obtain ⟨hv, he⟩ : pv = v ∧ (0 : Nat) = e := by
          simpa [Prod.ext_iff] using hp
        subst hv
        subst he
        simp only [fieldSet, hi]
        rw [if_neg]
        intro hc
        exact hov hc
  | tUint w =>
      simp only [numericParse] at hp
      rcases hu : parseUintGo (String.mk (trimSpaceGo raw.toList)).toList 64
          with pe | nv
      · rw [hu] at hp
        simp [Except.map] at hp
      · rw [hu] at hp
        simp only [Except.map] at hp
        obtain ⟨hv, he⟩ : ((nv : Int)) = v ∧ (0 : Nat) = e := by
          simpa [Prod.ext_iff] using hp
        subst hv
        subst he
        simp only [fieldSet, hu]
        rw [if_neg]
        intro hc
        apply hov
        simp only [numFits]
        refine ⟨Int.natCast_nonneg nv, ?_⟩
        exact_mod_cast hc
  | tFloat w =>
      simp only [numericParse] at hp
      rcases hof : overflowFloatGo w v e with _ | _
      · exact absurd hof (by simpa [numFits] using hov)
      · simp only [fieldSet, hp, hof]
        simp
  | tString => simp [numericParse] at hp
  | tBool => simp [numericParse] at hp
  | tTime => simp [numericParse] at hp
  | tUnsupported => simp [numericParse] at hp

set_option maxRecDepth 2000 in
/-- Witness for c3_overflow_not_casting, one leg per numeric family the
claim names: 300 parses but exceeds the 8-bit signed range; 4 * 10^38 parses
as a float64 but exceeds MaxFloat32 on a float32 destination (the repo's own
test drives the same overflow with MaxFloat64 rendered in full). -/
theorem c3_overflow_not_casting_witness :
    fieldSet (.tInt 8) i8Field "300" = .error (.overflowError "I8") ∧
    fieldSet (.tFloat 32) f32Field
        "400000000000000000000000000000000000000" =
      .error (.overflowError "F32") :=
  ⟨c3_overflow_not_casting (.tInt 8) i8Field "300" (300, 0)
      (by decide) (by decide),
   c3_overflow_not_casting (.tFloat 32) f32Field
      "400000000000000000000000000000000000000" (((4 * 10 ^ 38 : Nat) : Int), 0)
      (by decide) (by decide)⟩

/-- C8 counterexample: the boolean converter accepts the locale-style yes/no
tokens unconditionally — parseBool takes only the raw string, and no decoder
configuration (RecordTerminator, FieldSeparator, SkipFirstRecord are all of
them) reaches it — so their acceptance is hard-coded, not a configurable
policy. -/
theorem c8_yes_no_hardcoded :
    fieldSet .tBool flagField "yes" = .ok (.vBool true) ∧
    fieldSet .tBool flagField "No" = .ok (.vBool false) ∧
    parseBool "yes" = .ok true ∧ parseBool "no" = .ok false := by
  refine ⟨by decide, by decide, by decide, by decide⟩

/-- C8 (amended): boolean conversion accepts exactly the canonical
strconv.ParseBool tokens plus the hard-coded yes/no variants: parseBool
answers true precisely on yes, YES, Yes, 1, t, T, TRUE, true, True and false
precisely on no, NO, No, 0, f, F, FALSE, false, False; nothing configures
this. -/
theorem c8_token_table (s : String) :
    (parseBool s = .ok true ↔
      (s = "yes" ∨ s = "YES" ∨ s = "Yes" ∨ s = "1" ∨ s = "t" ∨ s = "T" ∨
        s = "TRUE" ∨ s = "true" ∨ s = "True")) ∧
    (parseBool s = .ok false ↔
      (s = "no" ∨ s = "NO" ∨ s = "No" ∨ s = "0" ∨ s = "f" ∨ s = "F" ∨
        s = "FALSE" ∨ s = "false" ∨ s = "False")) := by
  constructor
  · constructor
    · intro hx
      unfold parseBool parseBoolGo at hx
      split_ifs at hx with h1 h2 h3 h4 <;> tauto
    · intro hd
      unfold parseBool parseBoolGo
      split_ifs with h1 h2 h3 h4 <;>
        first
          | rfl
          | (exfalso
             rcases hd with rfl | rfl | rfl | rfl | rfl | rfl | rfl | rfl | rfl <;>
               simp_all)
  · constructor
    · intro hx
      unfold parseBool parseBoolGo at hx
      split_ifs at hx with h1 h2 h3 h4 <;> tauto
    · intro hd
      unfold parseBool parseBoolGo
      split_ifs with h1 h2 h3 h4 <;>
        first
          | rfl
          | (exfalso
             rcases hd with rfl | rfl | rfl | rfl | rfl | rfl | rfl | rfl | rfl <;>
               simp_all)

end Fw
